import Mathlib

/-!
Shallow embedding of the GVIX option-backtest repository
(`src/utils.py`, `src/option_pricing.py`) and verification of its spec.

Conventions of the embedding:
* pandas float values are modelled as `ℚ` where the source only uses field
  arithmetic, and as `ℝ` where it uses `log` / `sqrt` / `exp` / the normal CDF
  (the Black–Scholes pricer);
* `scipy.stats.norm.cdf` is external library code, so the pricer takes the
  CDF as a function parameter `Φ : ℝ → ℝ`;
* a pandas `Series` is a list of `(index, value)` pairs; trading dates are
  day numbers `ℕ`;
* a raised Python exception is `Except`/`Option` failure.
-/

namespace GVIX

/-! ### Black–Scholes pricer, `utils.bsm_option_price` (src/utils.py lines 7–32)

The source receives `option_type` as the numeric encoding produced by
`prepare_data` (0 = call, 1 = put); any other code raises `ValueError`,
modelled as `none`. -/

noncomputable def bsm_option_price (Φ : ℝ → ℝ) (option_type : ℕ)
    (S0 K T sigma rf : ℝ) : Option ℝ :=
  let d1 := (Real.log (S0 / K) + (rf + 0.5 * sigma ^ 2) * T) / (sigma * Real.sqrt T)
  let d2 := d1 - sigma * Real.sqrt T
  if option_type = 0 then
    some (S0 * Φ d1 - K * Real.exp (-rf * T) * Φ d2)
  else if option_type = 1 then
    some (K * Real.exp (-rf * T) * Φ (-d2) - S0 * Φ (-d1))
  else
    none

/-- The CALL/PUT enumeration of the data model (spec §3), with its numeric
encoding at the code boundary. -/
inductive OptionKind | CALL | PUT
deriving DecidableEq

def OptionKind.code : OptionKind → ℕ
  | .CALL => 0
  | .PUT => 1

/-! ### Option-kind encoding in `utils.prepare_data` (src/utils.py line 110)

`merged_data['opt'] = merged_data['opt_type'].apply(lambda x: 0 if x == 'call' else 1)` -/

def optEncode (opt_type : String) : ℕ :=
  if opt_type = "call" then 0 else 1

/-! ### Signal generation (src/option_pricing.py lines 36–41)

`signal` starts at 0; it becomes `1` when `price > (1 + thres) * close`,
else `-1` when `price < (1 - thres) * close`. -/

def signalOf (price close th : ℚ) : ℤ :=
  if price > (1 + th) * close then 1
  else if price < (1 - th) * close then -1
  else 0

/-! ### List primitives for the pandas operations used by the source -/

/-- `Series.cumsum()`: running sums. -/
def cumsumAux (acc : ℚ) : List ℚ → List ℚ
  | [] => []
  | x :: t => (acc + x) :: cumsumAux (acc + x) t

def cumsum (l : List ℚ) : List ℚ := cumsumAux 0 l

/-- `Series.cumprod()`: running products. -/
def cumprodAux (acc : ℚ) : List ℚ → List ℚ
  | [] => []
  | x :: t => (acc * x) :: cumprodAux (acc * x) t

def cumprod (l : List ℚ) : List ℚ := cumprodAux 1 l

/-- `np.maximum.accumulate` / `Series.expanding().max()`: prefix maxima. -/
def runningMaxAux (acc : ℚ) : List ℚ → List ℚ
  | [] => []
  | x :: t => max acc x :: runningMaxAux (max acc x) t

def runningMax : List ℚ → List ℚ
  | [] => []
  | x :: t => x :: runningMaxAux x t

/-- `Series.pct_change().dropna()` on a value list: period-over-period
returns, the undefined first entry dropped. -/
def retSer (l : List ℚ) : List ℚ :=
  (l.zip l.tail).map (fun p => p.2 / p.1 - 1)

/-- `Series.pct_change().fillna(0)` on a value list: period-over-period
returns with the undefined first entry replaced by `0`. -/
def pctFill0 : List ℚ → List ℚ
  | [] => []
  | l@(_ :: _) => 0 :: (l.zip l.tail).map (fun p => p.2 / p.1 - 1)

/-- `Series.shift(1).fillna(x)` on a value list: values move forward one
slot, the first slot is filled with `x`, the last value falls off. -/
def shiftFill (x : ℚ) : List ℚ → List ℚ
  | [] => []
  | l@(_ :: _) => x :: l.dropLast

/-- `Series.resample('1D').last().dropna()` on a date-sorted `(day, value)`
series: one observation per day, keeping the last of each run of equal
days; days absent from the index are dropped. -/
def resampleLast : List (ℕ × ℚ) → List (ℕ × ℚ)
  | [] => []
  | (d, v) :: rest =>
    match resampleLast rest with
    | [] => [(d, v)]
    | (d2, v2) :: t => if d = d2 then (d2, v2) :: t else (d, v) :: (d2, v2) :: t

/-! ### Metrics engine, `utils.get_backtest_info` (src/utils.py lines 34–88)

The numeric pipeline of the function, applied to the already-resampled
value list `l`:
* line 49: `ret_ser = portfolio_value_ser.pct_change().dropna()` is `retSer l`;
* line 52: `cum_ret_ser = (portfolio_value_ser.pct_change().fillna(0) + 0).cumprod()`
  is `cumRet l` — the `+ 0` of the source is kept verbatim;
* line 58: `Total Return = cum_ret_ser.iloc[-1] - 1`;
* line 67: `Maximum Drawdown = max((accumulate(max) - cum) / accumulate(max))`;
* lines 76–78: drawdown end date = `idxmax` of `expanding().max() - cum`,
  start date = `idxmax` of `cum` restricted to dates `≤` the end date.

The annualized-return, volatility, Sharpe and Calmar fields (lines 61, 64,
70, 73) involve real exponents and square roots; no theorem below refers to
them and they are not part of the executable report. -/

def cumRet (l : List ℚ) : List ℚ :=
  cumprod ((pctFill0 l).map (fun x => x + 0))

def totalReturn (l : List ℚ) : Option ℚ :=
  (cumRet l).getLast?.map (fun x => x - 1)

/-- The elementwise drawdown ratios `(runningMax cum - cum) / runningMax cum`.
Here `ℚ` division by zero yields `0`; in the source these are IEEE doubles,
where `0/0` is `NaN` — theorems that depend on a zero denominator state the
denominator explicitly instead of relying on the `ℚ` convention. -/
def ddRatios (cum : List ℚ) : List ℚ :=
  ((runningMax cum).zip cum).map (fun p => (p.1 - p.2) / p.1)

def maxDrawdown (l : List ℚ) : Option ℚ :=
  (ddRatios (cumRet l)).max?

/-- First index at which a list of rationals attains its maximum
(`Series.idxmax()` keeps the first occurrence), reported through the
date index. -/
def idxmax (dates : List ℕ) (vals : List ℚ) : Option ℕ :=
  match vals.max? with
  | none => none
  | some m => ((dates.zip vals).find? (fun p => p.2 = m)).map Prod.fst

/-- Drawdown end date (line 76): `idxmax` of `expanding().max() - cum`. -/
def mddEndDate (ser : List (ℕ × ℚ)) : Option ℕ :=
  let cum := cumRet (ser.map Prod.snd)
  idxmax (ser.map Prod.fst) (((runningMax cum).zip cum).map (fun p => p.1 - p.2))

/-- Drawdown start date (line 77): `idxmax` of `cum` restricted to dates up
to and including the end date (`Series.loc[:end]`). -/
def mddStartDate (ser : List (ℕ × ℚ)) : Option ℕ :=
  match mddEndDate ser with
  | none => none
  | some e =>
    let pref := ((ser.map Prod.fst).zip (cumRet (ser.map Prod.snd))).filter
      (fun p => p.1 ≤ e)
    idxmax (pref.map Prod.fst) (pref.map Prod.snd)

/-- The `ℚ`-expressible fields of the performance report. -/
structure ReportQ where
  totalReturn : Option ℚ
  maxDrawdown : Option ℚ
  mddStart : Option ℕ
  mddEnd : Option ℕ
deriving DecidableEq

/-- Numeric core of `get_backtest_info`, taking the series as it stands
after the in-place `to_datetime` conversion of line 45 (dates are day
numbers, assumed date-sorted as every caller's series is). -/
def getBacktestInfoQ (ser : List (ℕ × ℚ)) : ReportQ :=
  let rs := resampleLast ser
  { totalReturn := totalReturn (rs.map Prod.snd)
    maxDrawdown := maxDrawdown (rs.map Prod.snd)
    mddStart := mddStartDate rs
    mddEnd := mddEndDate rs }

/-- The metrics step as a fallible call: line 58 of `src/utils.py`
(`cum_ret_ser.iloc[-1]`) raises `IndexError` exactly when the resampled
series is empty (`cum_ret_ser` has the same length as the resampled
series); on a non-empty series the function completes and returns the
report. -/
def getBacktestInfoE (ser : List (ℕ × ℚ)) : Except String ReportQ :=
  match resampleLast ser with
  | [] => .error "IndexError"
  | _ :: _ => .ok (getBacktestInfoQ ser)

/-! ### The in-place index mutation of `get_backtest_info` (src/utils.py line 45)

`portfolio_value_ser.index = pd.to_datetime(portfolio_value_ser.index)`
assigns a converted index to the caller's series object before line 46
rebinds the local name to a fresh resampled series.  An index entry is
either a raw string or an already-converted timestamp; `pd.to_datetime` is
external library code, so the string-to-timestamp parse is a function
parameter. -/

inductive TimeVal
  | str (s : String)
  | ts (d : ℕ)
deriving DecidableEq

def toDatetime (parse : String → ℕ) : TimeVal → TimeVal
  | .str s => .ts (parse s)
  | .ts d => .ts d

/-- A pandas `Series` as the caller sees it: an index and a value column. -/
structure PdSeries where
  index : List TimeVal
  values : List ℚ
deriving DecidableEq

/-- The day number carried by an index entry once converted: `parse s` for
a raw string, `d` for an existing timestamp (so that
`toDatetime parse e = .ts (dayOf parse e)`). -/
def dayOf (parse : String → ℕ) : TimeVal → ℕ
  | .str s => parse s
  | .ts d => d

/-- `utils.get_backtest_info` as observed from outside: the first component
is the caller's series object after the call (line 45 replaced its index in
place; no other line touches the caller's object, since line 46 rebinds the
local name to a fresh resampled series), the second is the computed report
(its `ℚ`-expressible fields). -/
def get_backtest_info (parse : String → ℕ) (s : PdSeries) : PdSeries × ReportQ :=
  let caller : PdSeries :=
    { index := s.index.map (toDatetime parse), values := s.values }
  (caller, getBacktestInfoQ ((caller.index.map (dayOf parse)).zip caller.values))

/-! ### Prepared records and the aggregation (src/option_pricing.py lines 27–49)

A `PRec` is one row of the DataFrame yielded by `prepare_data`: the fields
the backtest loop reads.  Per-record pricing (lines 29–33) fills the
`price` column by calling `bsm_option_price` row by row; the pricer is
real-valued external-library arithmetic, so the orchestrator model takes
the row-pricing function as a parameter `pricer : PRec → ℚ` — every claim
about the loop is independent of the returned price values. -/

structure PRec where
  date : ℕ
  close : ℚ
  opt : ℕ
  S0 : ℚ
  K : ℚ
  T : ℚ
  sigma : ℚ
  rf : ℚ
  ret : ℚ
deriving DecidableEq

/-- `prepared_data['return'] = prepared_data['ret'] * prepared_data['signal']`
(line 44) for one record, given its filled `price`. -/
def recReturn (pricer : PRec → ℚ) (th : ℚ) (r : PRec) : ℚ :=
  r.ret * (signalOf (pricer r) r.close th : ℚ)

/-- The ascending list of distinct dates occurring in a record set
(`groupby('date')` sorts its group keys ascending). -/
def groupDates (rs : List PRec) : List ℕ :=
  ((rs.map PRec.date).dedup).insertionSort (· ≤ ·)

/-- `dd = prepared_data.groupby('date')['return'].mean()` (line 45): for
each date, the mean of `return` over the records of that date. -/
def dailyMean (pricer : PRec → ℚ) (th : ℚ) (rs : List PRec) : List (ℕ × ℚ) :=
  (groupDates rs).map (fun d =>
    let g := rs.filter (fun r => r.date = d)
    (d, (g.map (recReturn pricer th)).sum / g.length))

/-- Lines 46–47:
`pnl = (dd - commission).cumsum() + 1` then `pnl = pnl.shift(1).fillna(1)`.
The date index is unchanged by either step. -/
def pnlSeries (dd : List (ℕ × ℚ)) (commission : ℚ) : List (ℕ × ℚ) :=
  (dd.map Prod.fst).zip
    (shiftFill 1 ((cumsum (dd.map (fun p => p.2 - commission))).map (fun x => x + 1)))

/-! ### Backtest orchestrator, `option_pricing.get_backtest_result`
(src/option_pricing.py lines 8–55)

The loop walks the variants yielded by `prepare_data` — one per entry of
`sigma`, in order, the record set of variant `s` given by `prep s` — and
for each: prices, signals (reading `thres[sigma.index(s)]`), aggregates to
`pnl`, calls `get_backtest_info` on it (which raises `IndexError` when the
variant's series is empty, see `getBacktestInfoE`), and appends one column
to each output table.  A failed threshold lookup is Python's `IndexError`;
the source performs no length check, and any exception aborts the whole
call, losing both local tables. -/

def gbrAux (pricer : PRec → ℚ) (sigmaAll : List String) (thres : List ℚ)
    (prep : String → List PRec) (commission : ℚ) :
    List String → Except String (List (String × ReportQ) × List (String × List (ℕ × ℚ)))
  | [] => .ok ([], [])
  | s :: rest =>
    match thres.get? (sigmaAll.indexOf s) with
    | none => .error "IndexError"
    | some th =>
      let pnl := pnlSeries (dailyMean pricer th (prep s)) commission
      match getBacktestInfoE pnl with
      | .error e => .error e
      | .ok rep =>
        match gbrAux pricer sigmaAll thres prep commission rest with
        | .error e => .error e
        | .ok (resCols, pnlCols) =>
          .ok ((s, rep) :: resCols, (s, pnl) :: pnlCols)

def get_backtest_result (pricer : PRec → ℚ) (sigma : List String) (thres : List ℚ)
    (prep : String → List PRec) (commission : ℚ) :
    Except String (List (String × ReportQ) × List (String × List (ℕ × ℚ))) :=
  gbrAux pricer sigma thres prep commission sigma

/-! ### Spec-side comparison definitions for the cumulative-return step

Spec §4.2 step 3 reads: `cum_return[t] = Π(1 + daily_return[s]) for s ≤ t`,
"with `cum_return` at the first index = 1 (a fillna-to-zero-return base
case)".  These definitions follow that wording; they are the source's
line 52 with `+ 1` where the source has `+ 0`, and exist to be compared
with `cumRet` / `totalReturn` / `maxDrawdown` above. -/

def cumRetSpec (l : List ℚ) : List ℚ :=
  cumprod ((pctFill0 l).map (fun x => x + 1))

def totalReturnSpec (l : List ℚ) : Option ℚ :=
  (cumRetSpec l).getLast?.map (fun x => x - 1)

def maxDrawdownSpec (l : List ℚ) : Option ℚ :=
  (ddRatios (cumRetSpec l)).max?

/-! ### Sample inputs used by witnesses -/

/-- A one-record row with the given date; close, strike, spot, rates and
realized return all `1`, kind CALL. -/
def sampleRec (d : ℕ) : PRec :=
  { date := d, close := 1, opt := 0, S0 := 1, K := 1, T := 1, sigma := 1, rf := 1, ret := 1 }

/-- A degenerate row-pricing function for concrete runs. -/
def zeroPricer : PRec → ℚ := fun _ => 0

/-! ## Theorems -/

/-! ### Shared lemmas about the list primitives -/

theorem cumsumAux_length (acc : ℚ) (l : List ℚ) :
    (cumsumAux acc l).length = l.length := by
  induction l generalizing acc with
  | nil => rfl
  | cons x t ih => simp [cumsumAux, ih]

theorem cumsumAux_getElem (acc : ℚ) (l : List ℚ) (i : ℕ)
    (h : i < (cumsumAux acc l).length) :
    (cumsumAux acc l)[i] = acc + (l.take (i + 1)).sum := by
  induction l generalizing acc i with
  | nil => simp [cumsumAux] at h
  | cons x t ih =>
    cases i with
    | zero => simp [cumsumAux]
    | succ k =>
      have hk : k < (cumsumAux (acc + x) t).length := by
        simpa [cumsumAux] using h
      simp only [cumsumAux, List.getElem_cons_succ, ih (acc + x) k hk,
        List.take_succ_cons, List.sum_cons]
      ring

theorem cumsum_getElem (l : List ℚ) (i : ℕ) (h : i < (cumsum l).length) :
    (cumsum l)[i] = (l.take (i + 1)).sum := by
  simp only [cumsum] at h ⊢
  rw [cumsumAux_getElem 0 l i h, zero_add]

theorem cumsumAux_dropLast (acc : ℚ) (l : List ℚ) :
    (cumsumAux acc l).dropLast = cumsumAux acc l.dropLast := by
  induction l generalizing acc with
  | nil => rfl
  | cons x t ih =>
    cases t with
    | nil => rfl
    | cons y u =>
      calc (cumsumAux acc (x :: y :: u)).dropLast
          = (acc + x) :: (cumsumAux (acc + x) (y :: u)).dropLast := rfl
        _ = (acc + x) :: cumsumAux (acc + x) ((y :: u).dropLast) := by rw [ih]
        _ = cumsumAux acc ((x :: y :: u).dropLast) := rfl

theorem shiftFill_of_ne_nil (x : ℚ) (l : List ℚ) (h : l ≠ []) :
    shiftFill x l = x :: l.dropLast := by
  cases l with
  | nil => exact absurd rfl h
  | cons a t => rfl

theorem groupDates_ne_nil (rs : List PRec) (h : rs ≠ []) : groupDates rs ≠ [] := by
  unfold groupDates
  intro hc
  have hperm := List.perm_insertionSort (· ≤ ·) ((rs.map PRec.date).dedup)
  rw [hc] at hperm
  have hd : (rs.map PRec.date).dedup = [] :=
    List.eq_nil_of_length_eq_zero (by simpa using hperm.symm.length_eq)
  rw [List.dedup_eq_nil] at hd
  exact h (List.map_eq_nil_iff.mp hd)

theorem dailyMean_ne_nil (pricer : PRec → ℚ) (th : ℚ) (rs : List PRec)
    (h : rs ≠ []) : dailyMean pricer th rs ≠ [] := by
  unfold dailyMean
  simpa [List.map_eq_nil_iff] using groupDates_ne_nil rs h

theorem pnlSeries_vals_ne_nil (d : ℕ × ℚ) (dt : List (ℕ × ℚ)) (c : ℚ) :
    ((cumsum ((d :: dt).map (fun p => p.2 - c))).map (fun x => x + 1)) ≠ [] := by
  simp [cumsum, cumsumAux]

theorem pnlSeries_cons (d : ℕ × ℚ) (dt : List (ℕ × ℚ)) (c : ℚ) :
    pnlSeries (d :: dt) c =
      ((d :: dt).map Prod.fst).zip
        (1 :: ((cumsum ((d :: dt).map (fun p => p.2 - c))).map
          (fun x => x + 1)).dropLast) := by
  rw [pnlSeries, shiftFill_of_ne_nil _ _ (pnlSeries_vals_ne_nil d dt c)]

theorem pnlSeries_length (dd : List (ℕ × ℚ)) (c : ℚ) :
    (pnlSeries dd c).length = dd.length := by
  cases dd with
  | nil => rfl
  | cons d dt =>
    rw [pnlSeries_cons]
    simp only [List.length_zip, List.length_map, List.length_cons,
      List.length_dropLast, cumsum, cumsumAux_length]
    omega

theorem pnlSeries_head (dd : List (ℕ × ℚ)) (c : ℚ) (hne : dd ≠ []) :
    (pnlSeries dd c).head?.map Prod.snd = some 1 := by
  cases dd with
  | nil => exact absurd rfl hne
  | cons d dt =>
    rw [pnlSeries_cons]
    simp

theorem pnlSeries_getElem (dd : List (ℕ × ℚ)) (c : ℚ) (t : ℕ)
    (h : t < (pnlSeries dd c).length) (ht : 1 ≤ t) :
    (pnlSeries dd c)[t].2 = 1 + ((dd.take t).map (fun q => q.2 - c)).sum := by
  obtain ⟨k, rfl⟩ : ∃ k, t = k + 1 := ⟨t - 1, (Nat.succ_pred_eq_of_pos ht).symm⟩
  cases dd with
  | nil =>
    rw [pnlSeries_length] at h
    exact absurd h (by simp)
  | cons d dt =>
    have hlen : k + 1 < dt.length + 1 := by
      rw [pnlSeries_length, List.length_cons] at h
      exact h
    have hk : k < dt.length := by omega
    have hvlen : ((cumsum ((d :: dt).map (fun p => p.2 - c))).map
        (fun x => x + 1)).length = dt.length + 1 := by
      simp [cumsum, cumsumAux_length]
    rw [List.getElem_of_eq (pnlSeries_cons d dt c) h, List.getElem_zip]
    simp only [List.getElem_cons_succ]
    rw [List.getElem_dropLast, List.getElem_map, cumsum_getElem, ← List.map_take,
      List.take_succ_cons]
    exact add_comm _ 1

/-! ### The C8 claim -/

/-- C8: for any non-empty record set, the cumulative value series has
first value exactly `1`, and its value at every position `t ≥ 1` is `1`
plus the sum of the commission-adjusted daily average returns at positions
strictly before `t` (the series is the cumsum plus one, shifted forward
one period, the first slot filled with `1`). -/
theorem aggregator_pnl_base_and_cumsum (pricer : PRec → ℚ) (th c : ℚ)
    (rs : List PRec) (hne : rs ≠ []) :
    pnlSeries (dailyMean pricer th rs) c ≠ [] ∧
    (pnlSeries (dailyMean pricer th rs) c).head?.map Prod.snd = some 1 ∧
    ∀ t, 1 ≤ t → ∀ h : t < (pnlSeries (dailyMean pricer th rs) c).length,
      (pnlSeries (dailyMean pricer th rs) c)[t].2 =
        1 + (((dailyMean pricer th rs).take t).map (fun q => q.2 - c)).sum := by
  have hdd := dailyMean_ne_nil pricer th rs hne
  refine ⟨?_, pnlSeries_head _ _ hdd, fun t ht h => pnlSeries_getElem _ c t h ht⟩
  intro hc
  have := pnlSeries_length (dailyMean pricer th rs) c
  rw [hc] at this
  exact hdd (List.eq_nil_of_length_eq_zero this.symm)

theorem aggregator_pnl_base_and_cumsum_witness :
    pnlSeries (dailyMean zeroPricer 0 [sampleRec 0, sampleRec 1]) 0 ≠ [] ∧
    (pnlSeries (dailyMean zeroPricer 0 [sampleRec 0, sampleRec 1]) 0).head?.map
      Prod.snd = some 1 :=
  ⟨(aggregator_pnl_base_and_cumsum zeroPricer 0 0 [sampleRec 0, sampleRec 1]
      (by simp)).1,
   (aggregator_pnl_base_and_cumsum zeroPricer 0 0 [sampleRec 0, sampleRec 1]
      (by simp)).2.1⟩

/-- C5: for `option_kind ∈ {CALL, PUT}` and positive `S0, K, T, sigma`, the
pricer returns exactly the closed-form value: with
`d1 = (ln(S0/K) + (r + 0.5·sigma²)·T)/(sigma·√T)` and `d2 = d1 − sigma·√T`,
a CALL prices to `S0·Φ(d1) − K·e^(−r·T)·Φ(d2)` and a PUT to
`K·e^(−r·T)·Φ(−d2) − S0·Φ(−d1)`. -/
theorem bsm_price_closed_form (Φ : ℝ → ℝ) (k : OptionKind) (S0 K T sigma rf : ℝ)
    (hS : 0 < S0) (hK : 0 < K) (hT : 0 < T) (hsig : 0 < sigma) :
    bsm_option_price Φ k.code S0 K T sigma rf =
      some (
        let d1 := (Real.log (S0 / K) + (rf + 0.5 * sigma ^ 2) * T) / (sigma * Real.sqrt T)
        let d2 := d1 - sigma * Real.sqrt T
        match k with
        | .CALL => S0 * Φ d1 - K * Real.exp (-rf * T) * Φ d2
        | .PUT => K * Real.exp (-rf * T) * Φ (-d2) - S0 * Φ (-d1)) := by
  cases k <;> simp [bsm_option_price, OptionKind.code]

theorem bsm_price_closed_form_witness :
    bsm_option_price (fun x => x) OptionKind.CALL.code 1 1 1 1 0 =
      some (1 * ((Real.log (1 / 1) + (0 + 0.5 * 1 ^ 2) * 1) / (1 * Real.sqrt 1)) -
        1 * Real.exp (-0 * 1) *
          ((Real.log (1 / 1) + (0 + 0.5 * 1 ^ 2) * 1) / (1 * Real.sqrt 1) - 1 * Real.sqrt 1)) :=
  bsm_price_closed_form (fun x => x) .CALL 1 1 1 1 0
    (by norm_num) (by norm_num) (by norm_num) (by norm_num)

/-- C6: put–call parity. For any CDF `Φ` with the symmetry
`Φ(−x) = 1 − Φ(x)` of the standard normal CDF and positive inputs, the
CALL and PUT prices returned by the pricer satisfy
`call − put = S0 − K·e^(−r·T)` exactly over real arithmetic. -/
theorem bsm_put_call_parity (Φ : ℝ → ℝ) (S0 K T sigma rf : ℝ)
    (hΦ : ∀ x, Φ (-x) = 1 - Φ x)
    (hS : 0 < S0) (hK : 0 < K) (hT : 0 < T) (hsig : 0 < sigma)
    (c p : ℝ)
    (hc : bsm_option_price Φ OptionKind.CALL.code S0 K T sigma rf = some c)
    (hp : bsm_option_price Φ OptionKind.PUT.code S0 K T sigma rf = some p) :
    c - p = S0 - K * Real.exp (-rf * T) := by
  norm_num [bsm_option_price, OptionKind.code] at hc hp
  have h2 : sigma * Real.sqrt T -
        (Real.log (S0 / K) + (rf + 1 / 2 * sigma ^ 2) * T) / (sigma * Real.sqrt T) =
      -((Real.log (S0 / K) + (rf + 1 / 2 * sigma ^ 2) * T) / (sigma * Real.sqrt T) -
        sigma * Real.sqrt T) := by
    ring
  rw [h2, hΦ, hΦ] at hp
  rw [← hc, ← hp]
  ring

theorem bsm_put_call_parity_witness :
    (1 * ((1 : ℝ)/2) - 1 * Real.exp (-0 * 1) * (1/2)) -
        (1 * Real.exp (-0 * 1) * (1/2) - 1 * (1/2)) =
      1 - 1 * Real.exp (-0 * 1) :=
  bsm_put_call_parity (fun _ => 1/2) 1 1 1 1 0 (fun x => by norm_num)
    (by norm_num) (by norm_num) (by norm_num) (by norm_num) _ _ rfl rfl

/-- C7: a record with model price `p`, market close `c` and threshold `th`
gets signal `+1` when `p > (1+th)·c`, signal `−1` when (failing that)
`p < (1−th)·c`, and `0` otherwise; both comparisons are strict, so any `p`
in the closed band `[(1−th)·c, (1+th)·c]` yields `0`, and the signal is
always one of `{−1, 0, +1}`. -/
theorem signal_trichotomy (p c th : ℚ) :
    (p > (1 + th) * c → signalOf p c th = 1) ∧
    (¬ p > (1 + th) * c → p < (1 - th) * c → signalOf p c th = -1) ∧
    ((1 - th) * c ≤ p → p ≤ (1 + th) * c → signalOf p c th = 0) ∧
    (signalOf p c th = -1 ∨ signalOf p c th = 0 ∨ signalOf p c th = 1) := by
  unfold signalOf
  refine ⟨fun h => by simp [h], fun h1 h2 => by simp [h1, h2], fun h1 h2 => ?_, ?_⟩
  · rw [if_neg (by exact not_lt.mpr h2), if_neg (by exact not_lt.mpr h1)]
  · by_cases h1 : p > (1 + th) * c
    · simp [h1]
    · by_cases h2 : p < (1 - th) * c <;> simp [h1, h2]

theorem signal_trichotomy_witness :
    signalOf 2 1 0 = 1 ∧ signalOf (1/2) 1 0 = -1 ∧ signalOf 1 1 0 = 0 :=
  ⟨(signal_trichotomy 2 1 0).1 (by norm_num),
   (signal_trichotomy (1/2) 1 0).2.1 (by norm_num) (by norm_num),
   (signal_trichotomy 1 1 0).2.2.1 (by norm_num) (by norm_num)⟩

/-- C9: `prepare_data` encodes the option kind as `0` exactly for the
string `'call'` and as `1` for every other string, so on prepared records
the pricer's invalid-option-type branch (`ValueError`) is unreachable and
an unrecognized kind is silently priced as a PUT. -/
theorem optEncode_put_fallthrough (x : String) (Φ : ℝ → ℝ) (S0 K T sigma rf : ℝ) :
    (optEncode x = 0 ↔ x = "call") ∧
    (x ≠ "call" → optEncode x = 1) ∧
    (bsm_option_price Φ (optEncode x) S0 K T sigma rf).isSome = true ∧
    (x ≠ "call" →
      bsm_option_price Φ (optEncode x) S0 K T sigma rf =
        bsm_option_price Φ OptionKind.PUT.code S0 K T sigma rf) := by
  unfold optEncode
  by_cases h : x = "call" <;>
    simp [h, bsm_option_price, OptionKind.code]

theorem optEncode_put_fallthrough_witness :
    optEncode "x" = 1 ∧
    bsm_option_price (fun t => t) (optEncode "x") 1 1 1 1 0 =
      bsm_option_price (fun t => t) OptionKind.PUT.code 1 1 1 1 0 :=
  ⟨(optEncode_put_fallthrough "x" (fun t => t) 1 1 1 1 0).2.1 (by decide),
   (optEncode_put_fallthrough "x" (fun t => t) 1 1 1 1 0).2.2.2 (by decide)⟩

/-- C1 (code bug, evaluated at the failing input): on the two-day value
series `1, 2` (strictly positive, two resampled observations) the code's
cumulative-return series — line 52 of `src/utils.py`, whose `+ 0` keeps
the fillna-0 first return instead of adding 1 — is `[0, 0]`, and the
code's Total Return is `−1`; the claim's reconstruction `Π(1 + r)` (the
spec-side `cumRetSpec`) gives `[1, 2]` and Total Return
`value[last]/value[0] − 1 = 1 ≠ −1`. -/
theorem cum_return_bug_eval :
    cumRet [1, 2] = [0, 0] ∧
    totalReturn [1, 2] = some (-1) ∧
    (getBacktestInfoQ [(0, 1), (1, 2)]).totalReturn = some (-1) ∧
    cumRetSpec [1, 2] = [1, 2] ∧
    totalReturnSpec [1, 2] = some ((2 : ℚ) / 1 - 1) ∧
    ((2 : ℚ) / 1 - 1 = 1) ∧ ((-1 : ℚ) ≠ 1) := by
  norm_num [cumRet, cumRetSpec, totalReturn, totalReturnSpec, getBacktestInfoQ,
    resampleLast, pctFill0, cumprod, cumprodAux, List.getLast?]

/-- C3 (code bug, evaluated at the failing input): on the strictly
increasing two-day series `1, 2` the code's cumulative-return series is
`[0, 0]`, so the prefix maximum is `[0, 0]` and every drawdown ratio
`(runningMax − cum) / runningMax` has a zero denominator — in the source's
IEEE arithmetic each term is `0/0 = NaN` and the reported Maximum Drawdown
is `NaN`, not the claimed `0`.  Under the spec's intended cumulative
return (`cumRetSpec`, the same line with `+ 1`) the maximum drawdown on
this series is exactly `0`, as the claim states. -/
theorem drawdown_bug_eval :
    ((1 : ℚ) < 2) ∧
    cumRet [1, 2] = [0, 0] ∧
    runningMax (cumRet [1, 2]) = [0, 0] ∧
    cumRetSpec [1, 2] = [1, 2] ∧
    maxDrawdownSpec [1, 2] = some 0 := by
  norm_num [cumRet, cumRetSpec, maxDrawdownSpec, ddRatios, runningMax,
    runningMaxAux, pctFill0, cumprod, cumprodAux, List.max?]

/-! ### Lemmas for the shift/no-look-ahead claim -/

theorem sorted_mem_le_getLast (g : List ℕ) (hs : List.Sorted (· ≤ ·) g)
    (hne : g ≠ []) (b : ℕ) (hb : b ∈ g) : b ≤ g.getLast hne := by
  induction g with
  | nil => cases hb
  | cons x t ih =>
    cases t with
    | nil =>
      rw [List.mem_singleton] at hb
      simp [hb, List.getLast]
    | cons y u =>
      rw [List.getLast_cons (List.cons_ne_nil y u)]
      rcases List.mem_cons.mp hb with rfl | hb'
      · exact (List.sorted_cons.mp hs).1 _ (List.getLast_mem (List.cons_ne_nil y u))
      · exact ih (List.sorted_cons.mp hs).2 (List.cons_ne_nil y u) hb'

theorem groupDates_getLast_eq_max (rs : List PRec) (hne : rs ≠ []) :
    (groupDates rs).getLast? = (rs.map PRec.date).max? := by
  have hg : List.Sorted (· ≤ ·) (groupDates rs) :=
    List.sorted_insertionSort (· ≤ ·) ((rs.map PRec.date).dedup)
  have hperm : (groupDates rs).Perm ((rs.map PRec.date).dedup) :=
    List.perm_insertionSort (· ≤ ·) ((rs.map PRec.date).dedup)
  have hgne : groupDates rs ≠ [] := groupDates_ne_nil rs hne
  rw [List.getLast?_eq_getLast _ hgne]
  symm
  rw [List.max?_eq_some_iff Nat.le_refl (fun a b => by omega) (fun a b c => by omega)]
  constructor
  · have : (groupDates rs).getLast hgne ∈ groupDates rs := List.getLast_mem hgne
    exact List.mem_dedup.mp (hperm.mem_iff.mp this)
  · intro b hb
    exact sorted_mem_le_getLast _ hg hgne b
      (hperm.mem_iff.mpr (List.mem_dedup.mpr hb))

theorem dailyMean_dates (pricer : PRec → ℚ) (th : ℚ) (rs : List PRec) :
    (dailyMean pricer th rs).map Prod.fst = groupDates rs := by
  simp [dailyMean, List.map_map, Function.comp_def]

theorem pnlSeries_congr_dropLast (dd dd' : List (ℕ × ℚ)) (c : ℚ)
    (hlen : dd'.length = dd.length)
    (hinit : dd'.dropLast = dd.dropLast)
    (hdates : dd'.map Prod.fst = dd.map Prod.fst) :
    pnlSeries dd' c = pnlSeries dd c := by
  cases dd with
  | nil =>
    have : dd' = [] := List.eq_nil_of_length_eq_zero (by simpa using hlen)
    rw [this]
  | cons d dt =>
    cases dd' with
    | nil => simp at hlen
    | cons e et =>
      rw [pnlSeries_cons, pnlSeries_cons, hdates]
      have hvals : ((cumsum ((e :: et).map (fun p => p.2 - c))).map
            (fun x => x + 1)).dropLast =
          ((cumsum ((d :: dt).map (fun p => p.2 - c))).map
            (fun x => x + 1)).dropLast := by
        rw [← List.map_dropLast, ← List.map_dropLast]
        simp only [cumsum, cumsumAux_dropLast]
        rw [← List.map_dropLast, ← List.map_dropLast, hinit]
      rw [hvals]

/-- C10: the commission-adjusted average return of the latest date is
dropped by the one-period shift.  The cumulative value series (and hence
the performance report computed from it) is unchanged under any
modification of the last entry of the daily series — it depends only on
the daily returns of dates strictly before its last date — and the last
entry of the daily series is the one belonging to the latest date of the
record set. -/
theorem last_day_return_dropped (pricer : PRec → ℚ) (th c : ℚ) (rs : List PRec)
    (hne : rs ≠ []) (dd' : List (ℕ × ℚ))
    (hlen : dd'.length = (dailyMean pricer th rs).length)
    (hinit : dd'.dropLast = (dailyMean pricer th rs).dropLast)
    (hdates : dd'.map Prod.fst = (dailyMean pricer th rs).map Prod.fst) :
    pnlSeries dd' c = pnlSeries (dailyMean pricer th rs) c ∧
    getBacktestInfoQ (pnlSeries dd' c) =
      getBacktestInfoQ (pnlSeries (dailyMean pricer th rs) c) ∧
    (dailyMean pricer th rs).getLast?.map Prod.fst = (rs.map PRec.date).max? := by
  have hpnl := pnlSeries_congr_dropLast (dailyMean pricer th rs) dd' c hlen hinit hdates
  refine ⟨hpnl, by rw [hpnl], ?_⟩
  rw [← List.getLast?_map, dailyMean_dates, groupDates_getLast_eq_max rs hne]

theorem last_day_return_dropped_witness :
    pnlSeries [(0, -1), (1, 5)] 0 =
      pnlSeries (dailyMean zeroPricer 0 [sampleRec 0, sampleRec 1]) 0 ∧
    getBacktestInfoQ (pnlSeries [(0, -1), (1, 5)] 0) =
      getBacktestInfoQ (pnlSeries (dailyMean zeroPricer 0 [sampleRec 0, sampleRec 1]) 0) ∧
    (dailyMean zeroPricer 0 [sampleRec 0, sampleRec 1]).getLast?.map Prod.fst =
      ([sampleRec 0, sampleRec 1].map PRec.date).max? :=
  last_day_return_dropped zeroPricer 0 0 [sampleRec 0, sampleRec 1] (by simp)
    [(0, -1), (1, 5)]
    (by norm_num [dailyMean, groupDates, zeroPricer, sampleRec, List.insertionSort,
      List.orderedInsert])
    (by norm_num [dailyMean, groupDates, zeroPricer, sampleRec, recReturn, signalOf,
      List.insertionSort, List.orderedInsert])
    (by norm_num [dailyMean, groupDates, zeroPricer, sampleRec, List.insertionSort,
      List.orderedInsert])

/-! ### Lemmas for the orchestrator control flow -/

theorem resampleLast_ne_nil (l : List (ℕ × ℚ)) (h : l ≠ []) :
    resampleLast l ≠ [] := by
  cases l with
  | nil => exact absurd rfl h
  | cons x rest =>
    obtain ⟨d, v⟩ := x
    intro hc
    simp only [resampleLast] at hc
    split at hc
    · cases hc
    · split at hc <;> cases hc

theorem pnlSeries_ne_nil (dd : List (ℕ × ℚ)) (c : ℚ) (h : dd ≠ []) :
    pnlSeries dd c ≠ [] := by
  intro hc
  have hl := pnlSeries_length dd c
  rw [hc] at hl
  exact h (List.eq_nil_of_length_eq_zero hl.symm)

theorem getBacktestInfoE_ok (ser : List (ℕ × ℚ)) (h : ser ≠ []) :
    getBacktestInfoE ser = .ok (getBacktestInfoQ ser) := by
  unfold getBacktestInfoE
  cases hr : resampleLast ser with
  | nil => exact absurd hr (resampleLast_ne_nil ser h)
  | cons y t => rfl

theorem gbrAux_ok (pricer : PRec → ℚ) (sigmaAll : List String) (thres : List ℚ)
    (prep : String → List PRec) (c : ℚ) (l : List String)
    (h : ∀ s ∈ l, sigmaAll.indexOf s < thres.length ∧ prep s ≠ []) :
    ∃ r p, gbrAux pricer sigmaAll thres prep c l = .ok (r, p) ∧
      r.length = l.length ∧ p.length = l.length := by
  induction l with
  | nil => exact ⟨[], [], rfl, rfl, rfl⟩
  | cons s t ih =>
    obtain ⟨hs, hsne⟩ := h s (List.mem_cons_self s t)
    have hth : thres.get? (sigmaAll.indexOf s) =
        some (thres.get ⟨sigmaAll.indexOf s, hs⟩) := List.get?_eq_get hs
    have hE := getBacktestInfoE_ok
      (pnlSeries (dailyMean pricer (thres.get ⟨sigmaAll.indexOf s, hs⟩) (prep s)) c)
      (pnlSeries_ne_nil _ c (dailyMean_ne_nil _ _ _ hsne))
    obtain ⟨r, p, hrec, hr, hp⟩ := ih (fun x hx => h x (List.mem_cons_of_mem _ hx))
    refine ⟨(s, getBacktestInfoQ (pnlSeries (dailyMean pricer
        (thres.get ⟨sigmaAll.indexOf s, hs⟩) (prep s)) c)) :: r,
      (s, pnlSeries (dailyMean pricer
        (thres.get ⟨sigmaAll.indexOf s, hs⟩) (prep s)) c) :: p,
      ?_, by simp [hr], by simp [hp]⟩
    simp only [gbrAux, hth, hE, hrec]

theorem gbrAux_error (pricer : PRec → ℚ) (sigmaAll : List String) (thres : List ℚ)
    (prep : String → List PRec) (c : ℚ) (l : List String)
    (h : ∃ s ∈ l, thres.length ≤ sigmaAll.indexOf s ∨ prep s = []) :
    ∃ e, gbrAux pricer sigmaAll thres prep c l = .error e := by
  induction l with
  | nil =>
    obtain ⟨s, hs, _⟩ := h
    cases hs
  | cons s t ih =>
    by_cases hlook : thres.get? (sigmaAll.indexOf s) = none
    · exact ⟨"IndexError", by simp only [gbrAux, hlook]⟩
    · obtain ⟨th, hth⟩ := Option.ne_none_iff_exists'.mp hlook
      have hidx : sigmaAll.indexOf s < thres.length := by
        by_contra hc
        rw [List.get?_eq_none.mpr (le_of_not_lt hc)] at hth
        cases hth
      obtain ⟨x, hx, hxcase⟩ := h
      rcases List.mem_cons.mp hx with rfl | hxt
      · rcases hxcase with hle | hemp
        · omega
        · refine ⟨"IndexError", ?_⟩
          simp only [gbrAux, hth, hemp]
          rfl
      · obtain ⟨e, he⟩ := ih ⟨x, hxt, hxcase⟩
        rcases hE : getBacktestInfoE (pnlSeries (dailyMean pricer th (prep s)) c)
          with e₀ | rep
        · exact ⟨e₀, by simp only [gbrAux, hth, hE]⟩
        · exact ⟨e, by simp only [gbrAux, hth, hE, he]⟩

/-- C2 counterexample: with `sigma` and `thres` of differing lengths
(1 versus 2), `get_backtest_result` raises nothing — no ConfigError, no
exception — and returns tables holding one column each, contradicting the
claim that a length mismatch fails before any processing and leaves both
tables empty. -/
theorem mismatched_lengths_no_error :
    ((["a"] : List String).length ≠ ([0, 1] : List ℚ).length) ∧
    ((get_backtest_result zeroPricer ["a"] [0, 1] (fun _ => [sampleRec 0]) 0).toOption.map
      (fun rp => (rp.1.length, rp.2.length))) = some (1, 1) := by
  constructor
  · decide
  · rfl

/-- C2 amended: `get_backtest_result` performs no length validation at
all.  Whenever every variant's threshold index is in bounds — in
particular whenever `thres` is at least as long as `sigma`, lengths
mismatched or not — and every variant's prepared record set is non-empty,
the run succeeds and each output table receives one column per `sigma`
entry (extra thresholds are silently ignored); when `sigma` (with
distinct entries) is longer than `thres`, the run aborts with an
`IndexError` raised from the threshold lookup of the first variant whose
index reaches `len(thres)`, mid-processing, and the caller receives no
tables at all; and when any variant's prepared record set is empty, the
metrics step raises `IndexError` at `cum_ret_ser.iloc[-1]`
(`src/utils.py` line 58) and the whole call likewise aborts with no
tables. -/
theorem no_length_validation (pricer : PRec → ℚ) (sigma : List String)
    (thres : List ℚ) (prep : String → List PRec) (c : ℚ) :
    ((∀ s ∈ sigma, prep s ≠ []) → sigma.length ≤ thres.length →
      ∃ r p, get_backtest_result pricer sigma thres prep c = .ok (r, p) ∧
        r.length = sigma.length ∧ p.length = sigma.length) ∧
    (sigma.Nodup → thres.length < sigma.length →
      ∃ e, get_backtest_result pricer sigma thres prep c = .error e) ∧
    ((∃ s ∈ sigma, prep s = []) →
      ∃ e, get_backtest_result pricer sigma thres prep c = .error e) := by
  refine ⟨fun hprep hle => ?_, fun hnd hlt => ?_, fun hemp => ?_⟩
  · exact gbrAux_ok pricer sigma thres prep c sigma
      (fun s hs =>
        ⟨lt_of_lt_of_le (List.indexOf_lt_length.mpr hs) hle, hprep s hs⟩)
  · apply gbrAux_error
    refine ⟨sigma[thres.length], List.getElem_mem hlt, Or.inl ?_⟩
    rw [List.indexOf_getElem hnd thres.length hlt]
  · apply gbrAux_error
    obtain ⟨s, hs, he⟩ := hemp
    exact ⟨s, hs, Or.inr he⟩

theorem no_length_validation_witness :
    (∃ r p, get_backtest_result zeroPricer ["a"] [0] (fun _ => [sampleRec 0]) 0 =
      .ok (r, p) ∧ r.length = (["a"] : List String).length ∧
      p.length = (["a"] : List String).length) ∧
    (∃ e, get_backtest_result zeroPricer ["a", "b"] [0] (fun _ => [sampleRec 0]) 0 =
      .error e) ∧
    (∃ e, get_backtest_result zeroPricer ["a"] [0] (fun _ => ([] : List PRec)) 0 =
      .error e) :=
  ⟨(no_length_validation zeroPricer ["a"] [0] (fun _ => [sampleRec 0]) 0).1
      (fun s hs => by simp) (by decide),
   (no_length_validation zeroPricer ["a", "b"] [0] (fun _ => [sampleRec 0]) 0).2.1
      (by decide) (by decide),
   (no_length_validation zeroPricer ["a"] [0] (fun _ => ([] : List PRec)) 0).2.2
      ⟨"a", by simp, rfl⟩⟩

/-- C4 counterexample: `get_backtest_info` is not free of effects on its
input — on a series whose index holds a raw date string, the caller's
series is different after the call (its index entry has been converted in
place by line 45 of `src/utils.py`). -/
theorem metrics_mutates_caller :
    (get_backtest_info (fun _ => 0) ⟨[.str "2020-01-01"], [1]⟩).1 ≠
      (⟨[.str "2020-01-01"], [1]⟩ : PdSeries) := by
  decide

/-- C4 amended: `get_backtest_info` leaves the caller's values unchanged
and replaces the caller's index in place by its datetime conversion; when
the index already consists of timestamps the caller's series is unchanged;
and two calls on equal inputs yield equal reports. -/
theorem metrics_frame_pure (parse : String → ℕ) (s : PdSeries) :
    ((get_backtest_info parse s).1.values = s.values) ∧
    ((get_backtest_info parse s).1.index = s.index.map (toDatetime parse)) ∧
    ((∀ e ∈ s.index, ∃ d, e = TimeVal.ts d) → (get_backtest_info parse s).1 = s) ∧
    (∀ t, s = t → (get_backtest_info parse s).2 = (get_backtest_info parse t).2) := by
  refine ⟨rfl, rfl, fun h => ?_, fun t ht => ht ▸ rfl⟩
  show PdSeries.mk (s.index.map (toDatetime parse)) s.values = s
  have key : ∀ l : List TimeVal, (∀ e ∈ l, ∃ d, e = TimeVal.ts d) →
      l.map (toDatetime parse) = l := by
    intro l
    induction l with
    | nil => intro _; rfl
    | cons e rest ih =>
      intro hl
      obtain ⟨d, rfl⟩ := hl e (List.mem_cons_self e rest)
      simp only [List.map_cons, toDatetime]
      exact congrArg (List.cons _) (ih fun x hx => hl x (List.mem_cons_of_mem _ hx))
  rw [key s.index h]

theorem metrics_frame_pure_witness :
    (get_backtest_info (fun _ => 0) ⟨[.ts 7], [1]⟩).1 = (⟨[.ts 7], [1]⟩ : PdSeries) ∧
    (get_backtest_info (fun _ => 0) ⟨[.ts 7], [1]⟩).2 =
      (get_backtest_info (fun _ => 0) ⟨[.ts 7], [1]⟩).2 :=
  ⟨(metrics_frame_pure (fun _ => 0) ⟨[.ts 7], [1]⟩).2.2.1
      (by intro e he; simp only [List.mem_singleton] at he; exact ⟨7, he⟩),
   (metrics_frame_pure (fun _ => 0) ⟨[.ts 7], [1]⟩).2.2.2 _ rfl⟩

end GVIX
